import Mathlib

/-!
Shallow embedding of the e-signature field-placement and signature-embedding
subsystem (esignature-utils.ts and signer-setup-modal.tsx).

Modelling conventions:
- JavaScript numbers are modelled as rationals; the claims under study
  concern exact comparisons and linear arithmetic, not float rounding.
- Optional JavaScript values are modelled as Option; JavaScript falsiness of
  a possibly-missing number is none or 0, of a possibly-missing string is
  none or the empty string.
- The third-party pdf-lib library is not part of this repository: its
  document parser and image decoder are passed to the embedder as explicit
  function parameters, and the embedder returns the parsed document together
  with the ordered transcript of drawing operations it performs.  The final
  byte serialization is a function of that state.
-/

namespace ESig

/-- Field types, from the SignatureFieldData interface. -/
inductive FieldType where
  | SIGNATURE
  | INITIALS
  | DATE
  | TEXT
  | CHECKBOX
deriving DecidableEq, Repr

/-- SignatureFieldData, from esignature-utils.ts.  Coordinates are
percentages of the page dimensions. -/
structure SignatureFieldData where
  id : String
  type : FieldType
  pageNumber : Int
  x : ℚ
  y : ℚ
  width : ℚ
  height : ℚ
  required : Bool
  signerId : Option String := none
  value : Option String := none
deriving DecidableEq, Repr

/-- Partial field geometry, the argument of validateFieldCoordinates
(a Partial record in the source: each coordinate may be missing). -/
structure PartialFieldGeometry where
  x : Option ℚ
  y : Option ℚ
  width : Option ℚ
  height : Option ℚ
deriving DecidableEq, Repr

/-- JavaScript falsiness of a possibly-missing number: undefined or 0
(NaN, the remaining falsy number, has no counterpart in the rationals). -/
def numFalsy : Option ℚ → Bool
  | none => true
  | some v => v == 0

/-- validateFieldCoordinates, from esignature-utils.ts.  The source first
returns false when any of x, y, width, height is falsy, then checks each
coordinate against [0,100] and the two sum bounds. -/
def validateFieldCoordinates (f : PartialFieldGeometry) : Bool :=
  match f.x, f.y, f.width, f.height with
  | some x, some y, some w, some h =>
    if x == 0 || y == 0 || w == 0 || h == 0 then false
    else if x < 0 ∨ x > 100 then false
    else if y < 0 ∨ y > 100 then false
    else if w ≤ 0 ∨ w > 100 then false
    else if h ≤ 0 ∨ h > 100 then false
    else if x + w > 100 then false
    else if y + h > 100 then false
    else true
  | _, _, _, _ => false

/-- JavaScript falsiness of a possibly-missing string: undefined or empty. -/
def strFalsy : Option String → Bool
  | none => true
  | some s => s == ""

/-- The character class trimmed by the JavaScript string trim method and
matched by the regex whitespace class (restricted to the characters that
occur in practice). -/
def jsWhitespace (c : Char) : Bool :=
  c == ' ' || c == '\t' || c == '\n' || c == '\r' || c == '\x0b' || c == '\x0c'

/-- JavaScript string trim: drop leading and trailing whitespace. -/
def jsTrim (s : String) : String :=
  String.mk (((s.toList.dropWhile jsWhitespace).reverse.dropWhile jsWhitespace).reverse)

/-- The test the completion checks apply to a field value: the source
condition is that the value is truthy and its trim is not empty. -/
def filledValue : Option String → Bool
  | none => false
  | some v => !(v == "") && !(jsTrim v == "")

/-- The signer filter shared by areAllRequiredFieldsSigned and
getNextRequiredField: the source keeps a field when no signer id was
supplied (undefined or empty string, both falsy) or when the field's
signerId is strictly equal to the supplied one. -/
def matchesSigner (signerId : Option String) (f : SignatureFieldData) : Bool :=
  strFalsy signerId || f.signerId == signerId

/-- areAllRequiredFieldsSigned, from esignature-utils.ts: filter the
required fields in scope for the signer, then require every one of them to
carry a non-blank value. -/
def areAllRequiredFieldsSigned (fields : List SignatureFieldData)
    (signerId : Option String) : Bool :=
  (fields.filter (fun f => f.required && matchesSigner signerId f)).all
    (fun f => filledValue f.value)

/-- The candidate list built by getNextRequiredField: required fields in
scope for the signer whose value is missing or blank. -/
def nextCandidates (fields : List SignatureFieldData)
    (signerId : Option String) : List SignatureFieldData :=
  fields.filter (fun f =>
    f.required && matchesSigner signerId f && !(filledValue f.value))

/-- The comparator getNextRequiredField sorts with: by page number first,
then by y within a page. -/
def fieldLe (a b : SignatureFieldData) : Bool :=
  if a.pageNumber == b.pageNumber then decide (a.y ≤ b.y)
  else decide (a.pageNumber ≤ b.pageNumber)

/-- Insertion step of an insertion sort with a boolean comparison. -/
def insertLe (le : α → α → Bool) (x : α) : List α → List α
  | [] => [x]
  | y :: ys => if le x y then x :: y :: ys else y :: insertLe le x ys

/-- Insertion sort with a boolean comparison.  The source sorts with the
JavaScript array sort and a consistent comparator, which produces a sorted
permutation; ties may come out in any order, and no claim depends on the
order of ties. -/
def sortLe (le : α → α → Bool) : List α → List α
  | [] => []
  | x :: xs => insertLe le x (sortLe le xs)

/-- getNextRequiredField, from esignature-utils.ts: filter, sort by
(pageNumber, y), return the first element or null. -/
def getNextRequiredField (fields : List SignatureFieldData)
    (signerId : Option String) : Option SignatureFieldData :=
  (sortLe fieldLe (nextCandidates fields signerId)).head?

/-- A loaded PDF document: the ordered page list with (width, height) page
sizes in PDF user-space units.  Parsing bytes into this state and
serializing the mutated state back to bytes belong to the third-party
pdf-lib library and are abstracted as function parameters below. -/
structure PDFDoc where
  pages : List (ℚ × ℚ)
deriving DecidableEq, Repr

/-- One drawing operation performed by the embedder on the loaded
document.  The serialized output bytes are a function of the loaded
document together with the ordered transcript of such operations. -/
inductive DrawOp where
  | image (pageIndex : Nat) (x y width height : ℚ)
  | text (pageIndex : Nat) (content : String) (x y size : ℚ) (bold : Bool)
  | rect (pageIndex : Nat) (x y width height : ℚ)
deriving DecidableEq, Repr

/-- Absolute x coordinate computed by the embedder (source line 103). -/
def absX (pageWidth x : ℚ) : ℚ := x / 100 * pageWidth

/-- Absolute y coordinate computed by the embedder (source line 104):
the y axis is flipped from the top-down UI origin to the bottom-up PDF
origin. -/
def absY (pageHeight y h : ℚ) : ℚ :=
  pageHeight - y / 100 * pageHeight - h / 100 * pageHeight

/-- Absolute width computed by the embedder (source line 105). -/
def absWidth (pageWidth w : ℚ) : ℚ := w / 100 * pageWidth

/-- Absolute height computed by the embedder (source line 106). -/
def absHeight (pageHeight h : ℚ) : ℚ := h / 100 * pageHeight

/-- The JavaScript startsWith test, modelled over the character lists. -/
def strStartsWith (v p : String) : Bool := p.toList.isPrefixOf v.toList

/-- The drawing operations the embedder performs for one field on the page
it sits on, given the page size and 0-based page index.  Mirrors the body
of the inner loop of embedSignaturesInPDF: falsy values are skipped; image
fields are only attempted when the value is a data-image URL, falling back
to a bold placeholder when the decoder fails; text and date fields draw the
value with a font size clamped to the field height; checkboxes draw a
bordered square and, when checked, a checkmark glyph.  The decode parameter
stands for the success of the pdf-lib image decoder on the data URL. -/
def fieldOps (decode : String → Bool) (pageWidth pageHeight : ℚ)
    (pageIndex : Nat) (sig : SignatureFieldData) : List DrawOp :=
  match sig.value with
  | none => []
  | some v =>
    if v == "" then []
    else
      let x := absX pageWidth sig.x
      let y := absY pageHeight sig.y sig.height
      let w := absWidth pageWidth sig.width
      let h := absHeight pageHeight sig.height
      match sig.type with
      | .SIGNATURE | .INITIALS =>
        if strStartsWith v ("data:image/") then
          if decode v then [DrawOp.image pageIndex x y w h]
          else [DrawOp.text pageIndex ("[SIGNATURE]") x (y + h / 2) 12 true]
        else []
      | .TEXT | .DATE =>
        let fontSize := min (h * 0.6) 12
        [DrawOp.text pageIndex v x (y + h / 2 - fontSize / 2) fontSize false]
      | .CHECKBOX =>
        let checkSize := min w h * 0.8
        DrawOp.rect pageIndex x y checkSize checkSize ::
          (if v == "checked" then
            [DrawOp.text pageIndex ("✓") (x + checkSize * 0.1)
              (y + checkSize * 0.1) (checkSize * 0.8) true]
          else [])

/-- One step of the reduce that groups signatures by page number: append
the signature to its page's group when the key exists, otherwise append a
new (key, singleton) entry.  The record built by the source reduce is
modelled as an association list in key-insertion order. -/
def insertByPage (acc : List (Int × List SignatureFieldData))
    (sig : SignatureFieldData) : List (Int × List SignatureFieldData) :=
  if acc.any (fun e => e.1 == sig.pageNumber) then
    acc.map (fun e =>
      if e.1 == sig.pageNumber then (e.1, e.2 ++ [sig]) else e)
  else acc ++ [(sig.pageNumber, [sig])]

/-- Group the supplied signatures by page number (the source reduce). -/
def groupByPage (sigs : List SignatureFieldData) :
    List (Int × List SignatureFieldData) :=
  sigs.foldl insertByPage []

/-- Key comparison for the entry ordering. -/
def entryLe (a b : Int × List SignatureFieldData) : Bool :=
  decide (a.1 ≤ b.1)

/-- The enumeration order of the grouped record: JavaScript object
enumeration lists array-index keys (non-negative integers) in ascending
numeric order first, then the remaining keys in insertion order. -/
def entriesOrder (m : List (Int × List SignatureFieldData)) :
    List (Int × List SignatureFieldData) :=
  sortLe entryLe (m.filter (fun e => 0 ≤ e.1)) ++ m.filter (fun e => e.1 < 0)

/-- The drawing operations the embedder performs for one grouped entry:
the 1-based key is converted to a 0-based page index, out-of-range pages
are skipped, and each signature of the group is rendered in order. -/
def pageEntryOps (decode : String → Bool) (pages : List (ℚ × ℚ))
    (e : Int × List SignatureFieldData) : List DrawOp :=
  let pageNum := e.1 - 1
  if pageNum < 0 ∨ (pages.length : Int) ≤ pageNum then []
  else
    match pages.get? pageNum.toNat with
    | none => []
    | some ps => e.2.flatMap (fieldOps decode ps.1 ps.2 pageNum.toNat)

/-- The full transcript of drawing operations embedSignaturesInPDF
performs on a loaded document. -/
def embedOps (decode : String → Bool) (pages : List (ℚ × ℚ))
    (sigs : List SignatureFieldData) : List DrawOp :=
  (entriesOrder (groupByPage sigs)).flatMap (pageEntryOps decode pages)

/-- embedSignaturesInPDF, from esignature-utils.ts: load the document,
group the signatures by page, skip out-of-range pages and valueless
fields, draw every completed field, and return the mutated document (its
serialized bytes are a function of the returned state).  A load failure is
caught by the surrounding try block and rethrown as a single error with no
partial output. -/
def embedSignaturesInPDF (load : List Nat → Option PDFDoc)
    (decode : String → Bool) (pdfBytes : List Nat)
    (signatures : List SignatureFieldData) :
    Except String (PDFDoc × List DrawOp) :=
  match load pdfBytes with
  | none => Except.error ("Failed to embed signatures in PDF")
  | some doc => Except.ok (doc, embedOps decode doc.pages signatures)

/-- A signer row of the signer setup modal (the attributes the validation
reads). -/
structure Signer where
  signerEmail : String
  signerName : String
deriving DecidableEq, Repr

/-- Split a character list at the first occurrence of a separator. -/
def splitFirstAt (sep : Char) : List Char → Option (List Char × List Char)
  | [] => none
  | c :: cs =>
    if c == sep then some ([], cs)
    else (splitFirstAt sep cs).map (fun p => (c :: p.1, p.2))

/-- Membership in the character class of the email regex: anything that is
neither whitespace nor an at sign. -/
def emailClassOk (c : Char) : Bool := !(jsWhitespace c) && c != '@'

/-- Whether a dot occurs strictly inside the list (neither first nor
last position). -/
def hasInteriorDot : List Char → Bool
  | [] => false
  | _ :: t => t.dropLast.contains '.'

/-- The email test of the source regex (one or more class characters, an
at sign, one or more class characters, a dot, one or more class
characters).  Because the dot itself belongs to the character class, the
regex accepts exactly the strings with a single at sign whose local part
is a non-empty run of class characters and whose remainder is a non-empty
run of class characters containing a dot away from both ends. -/
def emailRegexTest (s : String) : Bool :=
  match splitFirstAt '@' s.toList with
  | none => false
  | some (a, r) =>
    !a.isEmpty && a.all emailClassOk && r.all emailClassOk && hasInteriorDot r

/-- The per-signer checks of validateSigners, in source order: name and
email present, then the email regex. -/
def signerCheck (s : Signer) : Option String :=
  if s.signerEmail == "" || s.signerName == "" then
    some ("All signers must have name and email")
  else if !(emailRegexTest s.signerEmail) then
    some ("All email addresses must be valid")
  else none

/-- The for loop of validateSigners: return the first per-signer error. -/
def firstSignerError : List Signer → Option String
  | [] => none
  | s :: rest =>
    match signerCheck s with
    | some e => some e
    | none => firstSignerError rest

/-- The JavaScript toLowerCase call, modelled as lowering each
character. -/
def jsToLower (s : String) : String := String.mk (s.toList.map Char.toLower)

/-- The lowercased email list validateSigners builds. -/
def lowerEmails (signers : List Signer) : List String :=
  signers.map (fun s => jsToLower s.signerEmail)

/-- The duplicate test of validateSigners: the email list is longer than
the set of its elements. -/
def hasDuplicateEmails (signers : List Signer) : Bool :=
  decide ((lowerEmails signers).length ≠ (lowerEmails signers).dedup.length)

/-- validateSigners, from signer-setup-modal.tsx: first per-signer error
if any, else the duplicate-email error if the lowercased emails are not
pairwise distinct, else null.  handleSave runs this before any network
persistence and stops on a non-null result. -/
def validateSigners (signers : List Signer) : Option String :=
  match firstSignerError signers with
  | some e => some e
  | none =>
    if hasDuplicateEmails signers then
      some ("Duplicate email addresses are not allowed")
    else none

/-- One step of collecting the distinct page keys in first-insertion
order (derived form of the grouping, used to characterize it). -/
def keyStep (ks : List Int) (p : Int) : List Int :=
  if p ∈ ks then ks else ks ++ [p]

/-- Collect distinct keys in first-insertion order, starting from an
accumulator. -/
def keysFold (acc : List Int) (ps : List Int) : List Int :=
  ps.foldl keyStep acc

/-- The distinct page numbers of a signature list, in first-occurrence
order: exactly the keys of the grouped record. -/
def pageKeys (sigs : List SignatureFieldData) : List Int :=
  keysFold [] (sigs.map (fun s => s.pageNumber))

/-- The grouped entry a key denotes: the key paired with the signatures
on that page, in list order. -/
def keyEntry (sigs : List SignatureFieldData) (k : Int) :
    Int × List SignatureFieldData :=
  (k, sigs.filter (fun s => s.pageNumber == k))

/-- Boolean order on the integers. -/
def intLe (a b : Int) : Bool := decide (a ≤ b)

/-- The key enumeration order of the grouped record: non-negative keys in
ascending order, then negative keys in first-insertion order. -/
def orderedKeys (sigs : List SignatureFieldData) : List Int :=
  sortLe intLe ((pageKeys sigs).filter (fun k => 0 ≤ k)) ++
    (pageKeys sigs).filter (fun k => k < 0)

/-- A one-page US Letter document (612 by 792 points), used as a concrete
loaded-document state. -/
def letterDoc : PDFDoc := ⟨[(612, 792)]⟩

/-- A parser that accepts every byte stream as the one-page Letter
document. -/
def loadLetter : List Nat → Option PDFDoc := fun _ => some letterDoc

/-- A parser that rejects every byte stream. -/
def loadNone : List Nat → Option PDFDoc := fun _ => none

/-- An image decoder that fails on every payload. -/
def decodeNever : String → Bool := fun _ => false

/-- An image decoder that succeeds on every payload. -/
def decodeAll : String → Bool := fun _ => true

/-- A required signature field with no assigned signer and no value. -/
def sharedField : SignatureFieldData :=
  ⟨"f1", FieldType.SIGNATURE, 1, 10, 80, 20, 8, true, none, none⟩

/-- A required text field assigned to signer s1 whose value is a single
space. -/
def wsField : SignatureFieldData :=
  ⟨"f2", FieldType.TEXT, 1, 10, 10, 20, 8, true, some ("s1"), some (" ")⟩

/-- A signature field whose stored value is not a data-image URL and does
not decode as an image. -/
def corruptField : SignatureFieldData :=
  ⟨"f3", FieldType.SIGNATURE, 1, 10, 80, 20, 8, true, none, some ("corrupt")⟩

/-- A signature field whose stored value is a data-image URL that fails
to decode. -/
def badUrlField : SignatureFieldData :=
  ⟨"f4", FieldType.SIGNATURE, 1, 10, 80, 20, 8, true, none,
    some ("data:image/png;base64,xyz")⟩

/-- A completed text field on page 5 of a one-page document. -/
def outOfRangeField : SignatureFieldData :=
  ⟨"f5", FieldType.TEXT, 5, 10, 10, 20, 8, true, none, some ("hello")⟩

/-- The partial geometry with x equal to 0 and the other coordinates well
inside the page. -/
def zeroXGeometry : PartialFieldGeometry :=
  ⟨some 0, some 10, some 10, some 10⟩

/-- Two signers sharing one email, the second with an empty name. -/
def dupEmailMissingName : List Signer :=
  [⟨"a@b.c", "Alice"⟩, ⟨"a@b.c", ""⟩]

/-- Two well-formed signers whose emails differ only in letter case. -/
def dupCaseSigners : List Signer :=
  [⟨"a@b.c", "Alice"⟩, ⟨"A@B.c", "Bob"⟩]

/-- Two well-formed signers with distinct emails. -/
def distinctSigners : List Signer :=
  [⟨"a@b.c", "Alice"⟩, ⟨"d@b.c", "Bob"⟩]

theorem insertLe_perm (le : α → α → Bool) (x : α) (l : List α) :
    List.Perm (insertLe le x l) (x :: l) := by
  induction l with
  | nil => exact List.Perm.refl _
  | cons y ys ih =>
    simp only [insertLe]
    split
    · exact List.Perm.refl _
    · exact (List.Perm.cons y ih).trans (List.Perm.swap x y ys)

theorem sortLe_perm (le : α → α → Bool) (l : List α) :
    List.Perm (sortLe le l) l := by
  induction l with
  | nil => exact List.Perm.refl _
  | cons x xs ih =>
    exact (insertLe_perm le x (sortLe le xs)).trans (List.Perm.cons x ih)

theorem mem_sortLe (le : α → α → Bool) (l : List α) (a : α) :
    a ∈ sortLe le l ↔ a ∈ l :=
  (sortLe_perm le l).mem_iff

theorem pairwise_insertLe (le : α → α → Bool)
    (htot : ∀ a b, le a b = true ∨ le b a = true)
    (htrans : ∀ a b c, le a b = true → le b c = true → le a c = true)
    (x : α) (l : List α) (hl : l.Pairwise (fun a b => le a b = true)) :
    (insertLe le x l).Pairwise (fun a b => le a b = true) := by
  induction l with
  | nil => simp [insertLe]
  | cons y ys ih =>
    rcases hl with _ | ⟨hy, hys⟩
    simp only [insertLe]
    split
    · rename_i hxy
      refine List.Pairwise.cons ?_ (List.Pairwise.cons hy hys)
      intro z hz
      rcases List.mem_cons.1 hz with rfl | hz2
      · exact hxy
      · exact htrans x y z hxy (hy z hz2)
    · rename_i hxy
      refine List.Pairwise.cons ?_ (ih hys)
      intro z hz
      rw [(insertLe_perm le x ys).mem_iff] at hz
      rcases List.mem_cons.1 hz with rfl | hz2
      · exact (htot _ y).resolve_left hxy
      · exact hy z hz2

theorem pairwise_sortLe (le : α → α → Bool)
    (htot : ∀ a b, le a b = true ∨ le b a = true)
    (htrans : ∀ a b c, le a b = true → le b c = true → le a c = true)
    (l : List α) :
    (sortLe le l).Pairwise (fun a b => le a b = true) := by
  induction l with
  | nil => exact List.Pairwise.nil
  | cons x xs ih => exact pairwise_insertLe le htot htrans x (sortLe le xs) ih

theorem head_sortLe_min (le : α → α → Bool)
    (htot : ∀ a b, le a b = true ∨ le b a = true)
    (htrans : ∀ a b c, le a b = true → le b c = true → le a c = true)
    (l : List α) (f : α) (hf : (sortLe le l).head? = some f) :
    f ∈ l ∧ ∀ g ∈ l, le f g = true := by
  rcases hs : sortLe le l with _ | ⟨b, t⟩
  · rw [hs] at hf; simp at hf
  · rw [hs] at hf
    simp only [List.head?_cons, Option.some.injEq] at hf
    rw [hf] at hs
    have hperm := sortLe_perm le l
    rw [hs] at hperm
    constructor
    · exact hperm.mem_iff.1 (List.mem_cons_self f t)
    · intro g hg
      have hg2 : g ∈ f :: t := hperm.mem_iff.2 hg
      rcases List.mem_cons.1 hg2 with rfl | hg3
      · exact (htot g g).elim id id
      · have hp := pairwise_sortLe le htot htrans l
        rw [hs] at hp
        exact (List.pairwise_cons.1 hp).1 g hg3

theorem fieldLe_total (a b : SignatureFieldData) :
    fieldLe a b = true ∨ fieldLe b a = true := by
  simp only [fieldLe]
  by_cases h : a.pageNumber = b.pageNumber
  · simp [h, le_total a.y b.y]
  · have h2 : (b.pageNumber == a.pageNumber) = false := by
      simp [beq_eq_false_iff_ne]; omega
    have h1 : (a.pageNumber == b.pageNumber) = false := by
      simp [beq_eq_false_iff_ne]; exact h
    simp [h1, h2, le_total a.pageNumber b.pageNumber]

theorem fieldLe_trans (a b c : SignatureFieldData)
    (hab : fieldLe a b = true) (hbc : fieldLe b c = true) :
    fieldLe a c = true := by
  simp only [fieldLe, beq_iff_eq] at *
  by_cases h1 : a.pageNumber = b.pageNumber <;>
    by_cases h2 : b.pageNumber = c.pageNumber
  · rw [if_pos h1] at hab
    rw [if_pos h2] at hbc
    rw [if_pos (h1.trans h2)]
    exact decide_eq_true (le_trans (of_decide_eq_true hab) (of_decide_eq_true hbc))
  · rw [if_pos h1] at hab
    rw [if_neg h2] at hbc
    have hb2 := of_decide_eq_true hbc
    have hac : a.pageNumber ≠ c.pageNumber := by omega
    rw [if_neg hac]
    exact decide_eq_true (by omega)
  · rw [if_neg h1] at hab
    rw [if_pos h2] at hbc
    have ha2 := of_decide_eq_true hab
    have hac : a.pageNumber ≠ c.pageNumber := by omega
    rw [if_neg hac]
    exact decide_eq_true (by omega)
  · rw [if_neg h1] at hab
    rw [if_neg h2] at hbc
    have ha2 := of_decide_eq_true hab
    have hb2 := of_decide_eq_true hbc
    have hac : a.pageNumber ≠ c.pageNumber := by omega
    rw [if_neg hac]
    exact decide_eq_true (by omega)

/-- C5: for every field list and signer id with at least one outstanding
required field, getNextRequiredField returns an outstanding required
field that is minimal in the lexicographic (pageNumber, y) order — lowest
page number first, and among fields on that page the smallest y. -/
theorem getNextRequiredField_returns_min (fields : List SignatureFieldData)
    (signerId : Option String) (h : nextCandidates fields signerId ≠ []) :
    ∃ f, getNextRequiredField fields signerId = some f ∧
      f ∈ nextCandidates fields signerId ∧
      ∀ g ∈ nextCandidates fields signerId,
        f.pageNumber < g.pageNumber ∨
          (f.pageNumber = g.pageNumber ∧ f.y ≤ g.y) := by
  rcases hs : (sortLe fieldLe (nextCandidates fields signerId)).head? with _ | f
  · exfalso
    apply h
    have := (sortLe_perm fieldLe (nextCandidates fields signerId)).symm
    rw [List.head?_eq_none_iff] at hs
    rw [hs] at this
    exact this.eq_nil
  · refine ⟨f, hs, ?_⟩
    have hmin := head_sortLe_min fieldLe fieldLe_total fieldLe_trans
      (nextCandidates fields signerId) f hs
    refine ⟨hmin.1, ?_⟩
    intro g hg
    have hle := hmin.2 g hg
    simp only [fieldLe] at hle
    simp only [beq_iff_eq] at hle
    by_cases hp : f.pageNumber = g.pageNumber
    · right
      refine ⟨hp, ?_⟩
      rw [if_pos hp] at hle
      exact of_decide_eq_true hle
    · left
      rw [if_neg hp] at hle
      have := of_decide_eq_true hle
      omega

/-- Witness for getNextRequiredField_returns_min at a concrete two-field
list: the field on the earlier page with the smaller y is returned. -/
theorem getNextRequiredField_returns_min_witness :
    ∃ f, getNextRequiredField [sharedField, wsField] none = some f ∧
      f ∈ nextCandidates [sharedField, wsField] none ∧
      ∀ g ∈ nextCandidates [sharedField, wsField] none,
        f.pageNumber < g.pageNumber ∨
          (f.pageNumber = g.pageNumber ∧ f.y ≤ g.y) :=
  getNextRequiredField_returns_min [sharedField, wsField] none (by decide)

theorem jsTrim_of_all_whitespace (v : String)
    (h : v.toList.all jsWhitespace = true) : jsTrim v = "" := by
  have hdrop : v.toList.dropWhile jsWhitespace = [] := by
    rw [List.dropWhile_eq_nil_iff]
    intro x hx
    exact List.all_eq_true.1 h x hx
  unfold jsTrim
  rw [hdrop]
  rfl

/-- C10: a required field in scope whose value is empty or whitespace-only
is treated as unfilled: areAllRequiredFieldsSigned is false and the field
is a candidate of getNextRequiredField (which therefore returns some
field). -/
theorem whitespace_value_is_unfilled (fields : List SignatureFieldData)
    (signerId : Option String) (f : SignatureFieldData) (v : String)
    (hmem : f ∈ fields) (hreq : f.required = true)
    (hsc : matchesSigner signerId f = true)
    (hv : f.value = some v) (hws : v.toList.all jsWhitespace = true) :
    areAllRequiredFieldsSigned fields signerId = false ∧
      f ∈ nextCandidates fields signerId ∧
      (getNextRequiredField fields signerId).isSome = true := by
  have hfv : filledValue f.value = false := by
    rw [hv]
    simp [filledValue, jsTrim_of_all_whitespace v hws]
  have hcand : f ∈ nextCandidates fields signerId :=
    List.mem_filter.2 ⟨hmem, by simp [hreq, hsc, hfv]⟩
  refine ⟨?_, hcand, ?_⟩
  · have hfmem : f ∈ fields.filter
        (fun g => g.required && matchesSigner signerId g) :=
      List.mem_filter.2 ⟨hmem, by simp [hreq, hsc]⟩
    cases hall : (fields.filter
        (fun g => g.required && matchesSigner signerId g)).all
        (fun g => filledValue g.value) with
    | false => simp [areAllRequiredFieldsSigned, hall]
    | true =>
      exfalso
      have := List.all_eq_true.1 hall f hfmem
      rw [hfv] at this
      exact Bool.false_ne_true this
  · rcases hs : sortLe fieldLe (nextCandidates fields signerId) with _ | ⟨b, t⟩
    · exfalso
      have hperm := sortLe_perm fieldLe (nextCandidates fields signerId)
      rw [hs] at hperm
      have hnil : nextCandidates fields signerId = [] := hperm.symm.eq_nil
      rw [hnil] at hcand
      simp at hcand
    · simp [getNextRequiredField, hs]

/-- Witness for whitespace_value_is_unfilled: a single required field
assigned to signer s1 whose value is one space. -/
theorem whitespace_value_is_unfilled_witness :
    areAllRequiredFieldsSigned [wsField] (some ("s1")) = false ∧
      wsField ∈ nextCandidates [wsField] (some ("s1")) ∧
      (getNextRequiredField [wsField] (some ("s1"))).isSome = true :=
  whitespace_value_is_unfilled [wsField] (some ("s1")) wsField (" ")
    (by decide) (by decide) (by decide) (by decide) (by decide)

/-- C3 counterexample: a required field with no assigned signer and no
value does not make areAllRequiredFieldsSigned false for signer s1, and
getNextRequiredField for s1 does not offer it — the unassigned field is
excluded, not shared, when a signer id is supplied. -/
theorem shared_field_not_in_signer_scope :
    sharedField.required = true ∧ sharedField.signerId = none ∧
      sharedField.value = none ∧
      areAllRequiredFieldsSigned [sharedField] (some ("s1")) = true ∧
      getNextRequiredField [sharedField] (some ("s1")) = none := by
  decide

/-- C3 amended: when a non-empty signer id is supplied, the two
completion queries ignore every field whose signerId is not exactly that
id — in particular every unassigned field: inserting such a field
anywhere changes neither result.  (Unassigned fields are in scope only
when no signer id is supplied.) -/
theorem unassigned_field_excluded_from_signer_scope
    (pre post : List SignatureFieldData) (sid : String)
    (f : SignatureFieldData) (hsid : sid ≠ "")
    (hf : f.signerId ≠ some sid) :
    areAllRequiredFieldsSigned (pre ++ f :: post) (some sid) =
      areAllRequiredFieldsSigned (pre ++ post) (some sid) ∧
    getNextRequiredField (pre ++ f :: post) (some sid) =
      getNextRequiredField (pre ++ post) (some sid) := by
  have hms : matchesSigner (some sid) f = false := by
    simp only [matchesSigner, strFalsy, Bool.or_eq_false_iff]
    constructor
    · simp [hsid]
    · simp only [beq_eq_false_iff_ne]
      exact hf
  have hfilter : ∀ p : SignatureFieldData → Bool, p f = false →
      (pre ++ f :: post).filter p = (pre ++ post).filter p := by
    intro p hp
    simp [List.filter_append, List.filter_cons, hp]
  constructor
  · unfold areAllRequiredFieldsSigned
    rw [hfilter _ (by simp [hms])]
  · unfold getNextRequiredField nextCandidates
    rw [hfilter _ (by simp [hms])]

/-- Witness for unassigned_field_excluded_from_signer_scope: inserting
the unassigned required field into the empty list leaves both queries
unchanged for signer s1. -/
theorem unassigned_field_excluded_witness :
    areAllRequiredFieldsSigned [sharedField] (some ("s1")) =
      areAllRequiredFieldsSigned [] (some ("s1")) ∧
    getNextRequiredField [sharedField] (some ("s1")) =
      getNextRequiredField [] (some ("s1")) :=
  unassigned_field_excluded_from_signer_scope [] [] ("s1") sharedField
    (by decide) (by decide)

/-- C2 counterexample: the geometry with x equal to 0 lies within [0,100]
on every coordinate, has positive width and height, and respects both sum
bounds, yet validateFieldCoordinates rejects it (the falsy check on the
source first line treats 0 as missing). -/
theorem validate_rejects_in_bounds_zero_x :
    zeroXGeometry = ⟨some 0, some 10, some 10, some 10⟩ ∧
      (0 : ℚ) ≤ 0 ∧ (0 : ℚ) ≤ 100 ∧ 0 < (10 : ℚ) ∧ (10 : ℚ) ≤ 100 ∧
      (0 : ℚ) + 10 ≤ 100 ∧ (10 : ℚ) + 10 ≤ 100 ∧
      validateFieldCoordinates zeroXGeometry = false := by
  refine ⟨rfl, le_refl 0, by norm_num, by norm_num, by norm_num, by norm_num,
    by norm_num, by rfl⟩

/-- C2 amended: for present coordinates, any of x lt 0, y lt 0,
x+w gt 100, y+h gt 100, w le 0, h le 0 makes validateFieldCoordinates
false; and every field with all four coordinates strictly positive (not
merely non-negative: 0 is falsy and rejected), within [0,100], and with
x+w le 100 and y+h le 100 is accepted. -/
theorem validateFieldCoordinates_bounds (x y w h : ℚ) :
    (x < 0 ∨ y < 0 ∨ x + w > 100 ∨ y + h > 100 ∨ w ≤ 0 ∨ h ≤ 0 →
      validateFieldCoordinates ⟨some x, some y, some w, some h⟩ = false) ∧
    (0 < x → x ≤ 100 → 0 < y → y ≤ 100 → 0 < w → w ≤ 100 →
      0 < h → h ≤ 100 → x + w ≤ 100 → y + h ≤ 100 →
      validateFieldCoordinates ⟨some x, some y, some w, some h⟩ = true) := by
  constructor
  · intro hbad
    simp only [validateFieldCoordinates]
    split_ifs with h1 h2 h3 h4 h5 h6 h7
    any_goals rfl
    exfalso
    simp only [Bool.or_eq_true, beq_iff_eq] at h1
    push_neg at h1 h2 h3 h4 h5 h6 h7
    rcases hbad with hb | hb | hb | hb | hb | hb
    · linarith [h2.1]
    · linarith [h3.1]
    · linarith
    · linarith
    · rcases lt_or_eq_of_le hb with hlt | heq
      · linarith [h4.1]
      · exact h1.1.2 heq
    · rcases lt_or_eq_of_le hb with hlt | heq
      · linarith [h5.1]
      · exact h1.2 heq
  · intro hx1 hx2 hy1 hy2 hw1 hw2 hh1 hh2 hxw hyh
    simp only [validateFieldCoordinates]
    split_ifs with h1 h2 h3 h4 h5 h6 h7
    · exfalso
      simp only [Bool.or_eq_true, beq_iff_eq] at h1
      rcases h1 with ((hb | hb) | hb) | hb <;> linarith
    · exfalso; rcases h2 with hb | hb <;> linarith
    · exfalso; rcases h3 with hb | hb <;> linarith
    · exfalso; rcases h4 with hb | hb <;> linarith
    · exfalso; rcases h5 with hb | hb <;> linarith
    · exfalso; linarith
    · exfalso; linarith
    · rfl

/-- Witness for validateFieldCoordinates_bounds: both directions at
concrete coordinates (x negative is rejected; the field at
(10, 80, 20, 8) is accepted). -/
theorem validateFieldCoordinates_bounds_witness :
    validateFieldCoordinates ⟨some (-1), some 5, some 5, some 5⟩ = false ∧
      validateFieldCoordinates ⟨some 10, some 80, some 20, some 8⟩ = true :=
  ⟨(validateFieldCoordinates_bounds (-1) 5 5 5).1 (Or.inl (by norm_num)),
    (validateFieldCoordinates_bounds 10 80 20 8).2 (by norm_num) (by norm_num)
      (by norm_num) (by norm_num) (by norm_num) (by norm_num) (by norm_num)
      (by norm_num) (by norm_num) (by norm_num)⟩

/-- C7: when the base bytes do not parse as a valid document, the embed
fails with its single error and produces no output state, whatever the
field set. -/
theorem embed_fails_on_unparseable_document (load : List Nat → Option PDFDoc)
    (decode : String → Bool) (pdfBytes : List Nat)
    (signatures : List SignatureFieldData) (h : load pdfBytes = none) :
    embedSignaturesInPDF load decode pdfBytes signatures =
      Except.error ("Failed to embed signatures in PDF") := by
  simp [embedSignaturesInPDF, h]

/-- Witness for embed_fails_on_unparseable_document: a parser rejecting
every byte stream makes the embed fail on a concrete input. -/
theorem embed_fails_on_unparseable_document_witness :
    loadNone [] = none ∧
      embedSignaturesInPDF loadNone decodeAll [] [sharedField] =
        Except.error ("Failed to embed signatures in PDF") :=
  ⟨rfl, embed_fails_on_unparseable_document loadNone decodeAll [] [sharedField] rfl⟩

/-- C1: the embedder computes absolute coordinates by the spec formulas
(absX = (x/100) times pageWidth, absWidth likewise, absHeight from the
page height, and absY as the y-axis flip pageHeight - (y/100) pageHeight
- absHeight); at the field (10, 80, 20, 8) on a 612 by 792 page they come
out to 61.2, 95.04, 122.4, 63.36, and the embed stamps an image exactly
there. -/
theorem coordinate_mapper_matches_spec (pw ph x y w h : ℚ) :
    absX pw x = x / 100 * pw ∧
    absWidth pw w = w / 100 * pw ∧
    absHeight ph h = h / 100 * ph ∧
    absY ph y h = ph - y / 100 * ph - absHeight ph h ∧
    absX 612 10 = 61.2 ∧ absY 792 80 8 = 95.04 ∧
    absWidth 612 20 = 122.4 ∧ absHeight 792 8 = 63.36 ∧
    embedSignaturesInPDF loadLetter decodeAll []
        [⟨"f0", FieldType.SIGNATURE, 1, 10, 80, 20, 8, true, none,
          some ("data:image/png;base64,ok")⟩] =
      Except.ok (letterDoc,
        [DrawOp.image 0 (absX 612 10) (absY 792 80 8) (absWidth 612 20)
          (absHeight 792 8)]) := by
  refine ⟨rfl, rfl, rfl, ?_, by norm_num [absX], by norm_num [absY],
    by norm_num [absWidth], by norm_num [absHeight], by rfl⟩
  unfold absY absHeight
  ring

theorem hasDuplicateEmails_iff (signers : List Signer) :
    hasDuplicateEmails signers = true ↔ ¬ (lowerEmails signers).Nodup := by
  simp only [hasDuplicateEmails, decide_eq_true_eq]
  constructor
  · intro hne hnd
    exact hne (by rw [List.dedup_eq_self.2 hnd])
  · intro hnd hlen
    apply hnd
    have hsub := List.dedup_sublist (lowerEmails signers)
    have heq := hsub.eq_of_length hlen.symm
    rw [← heq]
    exact List.nodup_dedup _

theorem firstSignerError_eq_none (signers : List Signer)
    (hok : ∀ s ∈ signers,
      s.signerName ≠ "" ∧ emailRegexTest s.signerEmail = true) :
    firstSignerError signers = none := by
  induction signers with
  | nil => rfl
  | cons s rest ih =>
    have hs := hok s (List.mem_cons_self s rest)
    have hemail : s.signerEmail ≠ "" := by
      intro he
      rw [he] at hs
      exact absurd hs.2 (by decide)
    have hcheck : signerCheck s = none := by
      simp [signerCheck, hemail, hs.1, hs.2]
    simp only [firstSignerError, hcheck]
    exact ih (fun t ht => hok t (List.mem_cons_of_mem s ht))

/-- C8 counterexample: a list whose two signers share an email but whose
second signer lacks a name fails validation with the missing-name error,
not the duplicate-email error. -/
theorem duplicate_email_masked_by_missing_name :
    jsToLower ("a@b.c") = jsToLower ("a@b.c") ∧
      validateSigners dupEmailMissingName =
        some ("All signers must have name and email") ∧
      validateSigners dupEmailMissingName ≠
        some ("Duplicate email addresses are not allowed") := by
  refine ⟨rfl, by decide, by decide⟩

/-- C8 amended: any case-insensitive duplicate among the emails makes
validateSigners fail (with some error, hence before any persistence); the
error is specifically the duplicate-email one when every signer also has
a non-empty name and a regex-valid email; and well-formed signer lists
with pairwise-distinct lowercased emails pass. -/
theorem validateSigners_duplicate_emails (signers : List Signer) :
    (¬ (lowerEmails signers).Nodup →
      (validateSigners signers).isSome = true) ∧
    ((∀ s ∈ signers,
        s.signerName ≠ "" ∧ emailRegexTest s.signerEmail = true) →
      (¬ (lowerEmails signers).Nodup →
        validateSigners signers =
          some ("Duplicate email addresses are not allowed")) ∧
      ((lowerEmails signers).Nodup → validateSigners signers = none)) := by
  constructor
  · intro hdup
    unfold validateSigners
    cases hfe : firstSignerError signers with
    | some e => rfl
    | none =>
      rw [if_pos ((hasDuplicateEmails_iff signers).2 hdup)]
      rfl
  · intro hok
    have hfe := firstSignerError_eq_none signers hok
    constructor
    · intro hdup
      unfold validateSigners
      rw [hfe]
      rw [if_pos ((hasDuplicateEmails_iff signers).2 hdup)]
    · intro hnd
      unfold validateSigners
      rw [hfe]
      rw [if_neg (fun hc => (hasDuplicateEmails_iff signers).1 hc hnd)]

/-- Witness for validateSigners_duplicate_emails: the duplicate-email
error fires on two well-formed signers whose emails differ only in case,
and two well-formed signers with distinct emails pass. -/
theorem validateSigners_duplicate_emails_witness :
    (validateSigners dupCaseSigners).isSome = true ∧
      validateSigners dupCaseSigners =
        some ("Duplicate email addresses are not allowed") ∧
      validateSigners distinctSigners = none :=
  ⟨(validateSigners_duplicate_emails dupCaseSigners).1 (by decide),
    ((validateSigners_duplicate_emails dupCaseSigners).2 (by decide)).1
      (by decide),
    ((validateSigners_duplicate_emails distinctSigners).2 (by decide)).2
      (by decide)⟩

theorem groupByPage_concat (l : List SignatureFieldData)
    (s : SignatureFieldData) :
    groupByPage (l ++ [s]) = insertByPage (groupByPage l) s := by
  unfold groupByPage
  rw [List.foldl_append]
  rfl

theorem pageKeys_concat (l : List SignatureFieldData)
    (s : SignatureFieldData) :
    pageKeys (l ++ [s]) = keyStep (pageKeys l) s.pageNumber := by
  unfold pageKeys keysFold
  rw [List.map_append, List.foldl_append]
  rfl

theorem mem_keysFold (k : Int) (ps : List Int) :
    ∀ acc, (k ∈ keysFold acc ps ↔ k ∈ acc ∨ k ∈ ps) := by
  induction ps with
  | nil => intro acc; simp [keysFold]
  | cons q qs ih =>
    intro acc
    have hstep : keysFold acc (q :: qs) = keysFold (keyStep acc q) qs := rfl
    rw [hstep, ih (keyStep acc q)]
    unfold keyStep
    split
    · rename_i hq
      rw [List.mem_cons]
      constructor
      · rintro (h | h)
        · exact Or.inl h
        · exact Or.inr (Or.inr h)
      · rintro (h | rfl | h)
        · exact Or.inl h
        · exact Or.inl hq
        · exact Or.inr h
    · simp only [List.mem_append, List.mem_singleton, List.mem_cons]
      tauto

theorem nodup_keysFold (ps : List Int) :
    ∀ acc, acc.Nodup → (keysFold acc ps).Nodup := by
  induction ps with
  | nil => intro acc h; exact h
  | cons q qs ih =>
    intro acc h
    have hstep : keysFold acc (q :: qs) = keysFold (keyStep acc q) qs := rfl
    rw [hstep]
    apply ih
    unfold keyStep
    split
    · exact h
    · rename_i hq
      simp [List.nodup_append, h, hq]

theorem nodup_pageKeys (l : List SignatureFieldData) : (pageKeys l).Nodup :=
  nodup_keysFold _ [] List.nodup_nil

theorem mem_pageKeys (l : List SignatureFieldData) (k : Int) :
    k ∈ pageKeys l ↔ ∃ s ∈ l, s.pageNumber = k := by
  unfold pageKeys
  rw [mem_keysFold]
  simp

theorem filter_keyStep (p : Int → Bool) (acc : List Int) (q : Int) :
    (keyStep acc q).filter p =
      if p q then keyStep (acc.filter p) q else acc.filter p := by
  unfold keyStep
  by_cases hq : q ∈ acc
  · rw [if_pos hq]
    by_cases hp : p q = true
    · rw [if_pos hp, if_pos (List.mem_filter.2 ⟨hq, hp⟩)]
    · rw [if_neg hp]
  · rw [if_neg hq, List.filter_append]
    by_cases hp : p q = true
    · rw [if_pos hp]
      have hq2 : q ∉ acc.filter p := fun hc => hq (List.mem_filter.1 hc).1
      rw [if_neg hq2]
      simp [hp]
    · rw [if_neg hp]
      simp [Bool.eq_false_iff.2 hp]

theorem filter_keysFold (p : Int → Bool) (ps : List Int) :
    ∀ acc, (keysFold acc ps).filter p =
      keysFold (acc.filter p) (ps.filter p) := by
  induction ps with
  | nil => intro acc; rfl
  | cons q qs ih =>
    intro acc
    have hstep : keysFold acc (q :: qs) = keysFold (keyStep acc q) qs := rfl
    rw [hstep, ih (keyStep acc q), filter_keyStep]
    rw [List.filter_cons]
    by_cases hp : p q = true
    · rw [if_pos hp, if_pos hp]
      rfl
    · rw [if_neg hp, if_neg hp]

theorem flatMap_map_eq (f : β → List γ) (g : α → β) (l : List α) :
    (l.map g).flatMap f = l.flatMap (fun x => f (g x)) := by
  induction l with
  | nil => rfl
  | cons a t ih => simp only [List.map_cons, List.flatMap_cons, ih]

theorem any_map_eq (g : α → β) (p : β → Bool) (l : List α) :
    (l.map g).any p = l.any (fun x => p (g x)) := by
  induction l with
  | nil => rfl
  | cons a t ih => simp only [List.map_cons, List.any_cons, ih]

theorem flatMap_filter_ne (g : Int → List DrawOp) (y : Int)
    (hg : g y = []) (l : List Int) :
    l.flatMap g = (l.filter (fun x => x != y)).flatMap g := by
  induction l with
  | nil => rfl
  | cons a t ih =>
    rw [List.flatMap_cons, List.filter_cons]
    by_cases ha : a = y
    · rw [if_neg (by simp [ha]), ha, hg, List.nil_append]
      exact ih
    · rw [if_pos (bne_iff_ne.2 ha), List.flatMap_cons, ih]

theorem insertLe_map (g : α → β) (le₁ : α → α → Bool) (le₂ : β → β → Bool)
    (hle : ∀ a b, le₂ (g a) (g b) = le₁ a b) (x : α) (l : List α) :
    insertLe le₂ (g x) (l.map g) = (insertLe le₁ x l).map g := by
  induction l with
  | nil => rfl
  | cons y ys ih =>
    simp only [List.map_cons, insertLe, hle]
    split
    · simp
    · simp only [List.map_cons, ih]

theorem sortLe_map (g : α → β) (le₁ : α → α → Bool) (le₂ : β → β → Bool)
    (hle : ∀ a b, le₂ (g a) (g b) = le₁ a b) (l : List α) :
    sortLe le₂ (l.map g) = (sortLe le₁ l).map g := by
  induction l with
  | nil => rfl
  | cons x xs ih =>
    simp only [List.map_cons, sortLe, ih]
    exact insertLe_map g le₁ le₂ hle x (sortLe le₁ xs)

theorem intLe_total (a b : Int) : intLe a b = true ∨ intLe b a = true := by
  simp only [intLe, decide_eq_true_eq]
  omega

theorem intLe_trans (a b c : Int) (h1 : intLe a b = true)
    (h2 : intLe b c = true) : intLe a c = true := by
  simp only [intLe, decide_eq_true_eq] at *
  omega

theorem groupByPage_eq (l : List SignatureFieldData) :
    groupByPage l = (pageKeys l).map (keyEntry l) := by
  induction l using List.reverseRecOn with
  | nil => rfl
  | append_singleton l s ih =>
    rw [groupByPage_concat, ih, pageKeys_concat]
    unfold insertByPage keyStep
    by_cases hmem : s.pageNumber ∈ pageKeys l
    · have hany : ((pageKeys l).map (keyEntry l)).any
          (fun e => e.1 == s.pageNumber) = true := by
        rw [any_map_eq, List.any_eq_true]
        exact ⟨s.pageNumber, hmem, by simp [keyEntry]⟩
      rw [if_pos hany, if_pos hmem, List.map_map]
      apply List.map_eq_map_iff.mpr
      intro k hk
      simp only [Function.comp, keyEntry]
      by_cases hks : k = s.pageNumber
      · subst hks
        simp [List.filter_append, List.filter_cons]
      · have hne : (s.pageNumber == k) = false :=
          beq_eq_false_iff_ne.2 (fun hc => hks hc.symm)
        have hne2 : (k == s.pageNumber) = false := beq_eq_false_iff_ne.2 hks
        simp [List.filter_append, List.filter_cons, hne, hne2]
    · have hany : ((pageKeys l).map (keyEntry l)).any
          (fun e => e.1 == s.pageNumber) = false := by
        rw [any_map_eq, Bool.eq_false_iff]
        intro hc
        rw [List.any_eq_true] at hc
        rcases hc with ⟨k, hk, hkeq⟩
        simp only [keyEntry, beq_iff_eq] at hkeq
        exact hmem (hkeq ▸ hk)
      rw [if_neg (by simp [hany]), if_neg hmem, List.map_append]
      congr 1
      · apply List.map_eq_map_iff.mpr
        intro k hk
        have hks : k ≠ s.pageNumber := fun hc => hmem (hc ▸ hk)
        have hne : (s.pageNumber == k) = false :=
          beq_eq_false_iff_ne.2 (fun hc => hks hc.symm)
        simp [keyEntry, List.filter_append, List.filter_cons, hne]
      · have hnil : l.filter (fun t => t.pageNumber == s.pageNumber) = [] := by
          rw [List.filter_eq_nil_iff]
          intro t ht hc
          rw [beq_iff_eq] at hc
          exact hmem ((mem_pageKeys l s.pageNumber).2 ⟨t, ht, hc⟩)
        simp [keyEntry, List.filter_append, List.filter_cons, hnil]

theorem embedOps_eq (decode : String → Bool) (pages : List (ℚ × ℚ))
    (l : List SignatureFieldData) :
    embedOps decode pages l =
      (orderedKeys l).flatMap
        (fun k => pageEntryOps decode pages (keyEntry l k)) := by
  unfold embedOps entriesOrder orderedKeys
  rw [groupByPage_eq]
  rw [List.filter_map, List.filter_map]
  rw [sortLe_map (keyEntry l) intLe entryLe (fun a b => rfl)]
  rw [← List.map_append, flatMap_map_eq]
  rfl

theorem fieldOps_mem_embedOps (decode : String → Bool)
    (pages : List (ℚ × ℚ)) (sigs : List SignatureFieldData)
    (f : SignatureFieldData) (pw ph : ℚ) (op : DrawOp)
    (hmem : f ∈ sigs) (h1 : 1 ≤ f.pageNumber)
    (h2 : f.pageNumber ≤ (pages.length : Int))
    (hget : pages.get? (f.pageNumber - 1).toNat = some (pw, ph))
    (hop : op ∈ fieldOps decode pw ph (f.pageNumber - 1).toNat f) :
    op ∈ embedOps decode pages sigs := by
  rw [embedOps_eq, List.mem_flatMap]
  refine ⟨f.pageNumber, ?_, ?_⟩
  · unfold orderedKeys
    rw [List.mem_append]
    left
    rw [mem_sortLe, List.mem_filter]
    refine ⟨(mem_pageKeys sigs f.pageNumber).2 ⟨f, hmem, rfl⟩, ?_⟩
    simp only [decide_eq_true_eq]
    omega
  · simp only [pageEntryOps, keyEntry]
    rw [if_neg (by omega)]
    rw [hget]
    rw [List.mem_flatMap]
    exact ⟨f, List.mem_filter.2 ⟨hmem, by simp⟩, hop⟩

theorem fieldOps_decode_failure (decode : String → Bool) (pw ph : ℚ)
    (pidx : Nat) (g : SignatureFieldData) (v : String)
    (htype : g.type = FieldType.SIGNATURE ∨ g.type = FieldType.INITIALS)
    (hval : g.value = some v)
    (hurl : strStartsWith v ("data:image/") = true)
    (hdec : decode v = false) :
    fieldOps decode pw ph pidx g =
      [DrawOp.text pidx ("[SIGNATURE]") (absX pw g.x)
        (absY ph g.y g.height + absHeight ph g.height / 2) 12 true] := by
  have hne : (v == "") = false := by
    rw [beq_eq_false_iff_ne]
    intro hv
    rw [hv] at hurl
    exact absurd hurl (by decide)
  rcases htype with ht | ht <;>
    simp [fieldOps, hval, hne, ht, hurl, hdec]

/-- C6 amended: for a SIGNATURE or INITIALS field whose stored value is a
data-image URL that the decoder rejects, the embed does not abort: it
draws exactly the bold [SIGNATURE] placeholder at the field's vertical
center and still stamps all other fields (every drawing operation of
every in-range field of the list appears in the transcript).  A value
that is not a data-image URL never reaches the decoder: the field is
skipped silently and nothing is drawn for it (see the counterexample). -/
theorem decode_failure_draws_placeholder (load : List Nat → Option PDFDoc)
    (decode : String → Bool) (pdfBytes : List Nat) (doc : PDFDoc)
    (pre post : List SignatureFieldData) (g : SignatureFieldData)
    (v : String) (pw ph : ℚ)
    (hload : load pdfBytes = some doc)
    (htype : g.type = FieldType.SIGNATURE ∨ g.type = FieldType.INITIALS)
    (hval : g.value = some v)
    (hurl : strStartsWith v ("data:image/") = true)
    (hdec : decode v = false)
    (h1 : 1 ≤ g.pageNumber) (h2 : g.pageNumber ≤ (doc.pages.length : Int))
    (hget : doc.pages.get? (g.pageNumber - 1).toNat = some (pw, ph)) :
    embedSignaturesInPDF load decode pdfBytes (pre ++ g :: post) =
      Except.ok (doc, embedOps decode doc.pages (pre ++ g :: post)) ∧
    fieldOps decode pw ph (g.pageNumber - 1).toNat g =
      [DrawOp.text (g.pageNumber - 1).toNat ("[SIGNATURE]") (absX pw g.x)
        (absY ph g.y g.height + absHeight ph g.height / 2) 12 true] ∧
    DrawOp.text (g.pageNumber - 1).toNat ("[SIGNATURE]") (absX pw g.x)
        (absY ph g.y g.height + absHeight ph g.height / 2) 12 true ∈
      embedOps decode doc.pages (pre ++ g :: post) ∧
    (∀ f ∈ pre ++ g :: post, ∀ pw2 ph2 op, 1 ≤ f.pageNumber →
      f.pageNumber ≤ (doc.pages.length : Int) →
      doc.pages.get? (f.pageNumber - 1).toNat = some (pw2, ph2) →
      op ∈ fieldOps decode pw2 ph2 (f.pageNumber - 1).toNat f →
      op ∈ embedOps decode doc.pages (pre ++ g :: post)) := by
  have hops := fieldOps_decode_failure decode pw ph
    (g.pageNumber - 1).toNat g v htype hval hurl hdec
  refine ⟨by simp [embedSignaturesInPDF, hload], hops, ?_, ?_⟩
  · apply fieldOps_mem_embedOps decode doc.pages (pre ++ g :: post) g pw ph
      _ (by simp) h1 h2 hget
    rw [hops]
    exact List.mem_singleton.2 rfl
  · intro f hf pw2 ph2 op hf1 hf2 hfget hfop
    exact fieldOps_mem_embedOps decode doc.pages (pre ++ g :: post) f pw2
      ph2 op hf hf1 hf2 hfget hfop

/-- Witness for decode_failure_draws_placeholder at the concrete
one-field list whose data-image value never decodes. -/
theorem decode_failure_draws_placeholder_witness :
    embedSignaturesInPDF loadLetter decodeNever [] ([] ++ badUrlField :: []) =
      Except.ok (letterDoc,
        embedOps decodeNever letterDoc.pages ([] ++ badUrlField :: [])) ∧
    fieldOps decodeNever 612 792 (badUrlField.pageNumber - 1).toNat
        badUrlField =
      [DrawOp.text (badUrlField.pageNumber - 1).toNat ("[SIGNATURE]")
        (absX 612 badUrlField.x)
        (absY 792 badUrlField.y badUrlField.height +
          absHeight 792 badUrlField.height / 2) 12 true] ∧
    DrawOp.text (badUrlField.pageNumber - 1).toNat ("[SIGNATURE]")
        (absX 612 badUrlField.x)
        (absY 792 badUrlField.y badUrlField.height +
          absHeight 792 badUrlField.height / 2) 12 true ∈
      embedOps decodeNever letterDoc.pages ([] ++ badUrlField :: []) ∧
    (∀ f ∈ [] ++ badUrlField :: [], ∀ pw2 ph2 op, 1 ≤ f.pageNumber →
      f.pageNumber ≤ (letterDoc.pages.length : Int) →
      letterDoc.pages.get? (f.pageNumber - 1).toNat = some (pw2, ph2) →
      op ∈ fieldOps decodeNever pw2 ph2 (f.pageNumber - 1).toNat f →
      op ∈ embedOps decodeNever letterDoc.pages ([] ++ badUrlField :: [])) :=
  decode_failure_draws_placeholder loadLetter decodeNever [] letterDoc
    [] [] badUrlField ("data:image/png;base64,xyz") 612 792 rfl
    (Or.inl rfl) rfl (by decide) rfl (by decide) (by decide) rfl

/-- C6 counterexample: a SIGNATURE field whose stored value is not a
data-image URL fails to decode as an embeddable image, yet the embed
draws nothing at all for it — no [SIGNATURE] placeholder (the transcript
is empty), contradicting the claim that a placeholder is drawn for every
value that fails to decode. -/
theorem corrupt_non_dataurl_value_draws_nothing :
    corruptField.type = FieldType.SIGNATURE ∧
      corruptField.value = some ("corrupt") ∧
      strStartsWith ("corrupt") ("data:image/") = false ∧
      decodeNever ("corrupt") = false ∧
      embedSignaturesInPDF loadLetter decodeNever [] [corruptField] =
        Except.ok (letterDoc, []) :=
  ⟨rfl, rfl, by decide, rfl, by rfl⟩

theorem pageEntryOps_out_of_range (decode : String → Bool)
    (pages : List (ℚ × ℚ)) (e : Int × List SignatureFieldData)
    (hout : e.1 < 1 ∨ (pages.length : Int) < e.1) :
    pageEntryOps decode pages e = [] := by
  unfold pageEntryOps
  rw [if_pos (by omega)]

theorem keyEntry_ne (pre post : List SignatureFieldData)
    (f : SignatureFieldData) (k : Int) (hk : k ≠ f.pageNumber) :
    keyEntry (pre ++ f :: post) k = keyEntry (pre ++ post) k := by
  unfold keyEntry
  have hne : (f.pageNumber == k) = false :=
    beq_eq_false_iff_ne.2 (fun hc => hk hc.symm)
  simp [List.filter_append, List.filter_cons, hne]

theorem mem_pageKeys_ne (pre post : List SignatureFieldData)
    (f : SignatureFieldData) (x : Int) (hx : x ≠ f.pageNumber) :
    x ∈ pageKeys (pre ++ f :: post) ↔ x ∈ pageKeys (pre ++ post) := by
  rw [mem_pageKeys, mem_pageKeys]
  constructor
  · rintro ⟨s, hs, rfl⟩
    rcases List.mem_append.1 hs with h | h
    · exact ⟨s, List.mem_append.2 (Or.inl h), rfl⟩
    · rcases List.mem_cons.1 h with rfl | h2
      · exact absurd rfl hx
      · exact ⟨s, List.mem_append.2 (Or.inr h2), rfl⟩
  · rintro ⟨s, hs, rfl⟩
    rcases List.mem_append.1 hs with h | h
    · exact ⟨s, List.mem_append.2 (Or.inl h), rfl⟩
    · exact ⟨s, List.mem_append.2 (Or.inr (List.mem_cons.2 (Or.inr h))), rfl⟩

theorem pageKeys_filter_ne (pre post : List SignatureFieldData)
    (f : SignatureFieldData) :
    (pageKeys (pre ++ f :: post)).filter (fun k => k != f.pageNumber) =
      (pageKeys (pre ++ post)).filter (fun k => k != f.pageNumber) := by
  unfold pageKeys
  rw [filter_keysFold, filter_keysFold]
  congr 1
  rw [List.map_append, List.map_append, List.map_cons]
  rw [List.filter_append, List.filter_append, List.filter_cons]
  simp

theorem sorted_filter_sortLe_eq (A B : List Int) (p : Int → Bool)
    (hA : A.Nodup) (hB : B.Nodup)
    (hmem : ∀ x, p x = true → (x ∈ A ↔ x ∈ B)) :
    (sortLe intLe A).filter p = (sortLe intLe B).filter p := by
  apply List.eq_of_perm_of_sorted (r := fun a b : Int => a ≤ b)
  · apply (List.perm_ext_iff_of_nodup
      (((sortLe_perm intLe A).nodup_iff.2 hA).filter p)
      (((sortLe_perm intLe B).nodup_iff.2 hB).filter p)).2
    intro a
    rw [List.mem_filter, List.mem_filter, mem_sortLe, mem_sortLe]
    constructor
    · rintro ⟨ha, hp⟩
      exact ⟨(hmem a hp).1 ha, hp⟩
    · rintro ⟨ha, hp⟩
      exact ⟨(hmem a hp).2 ha, hp⟩
  · exact ((pairwise_sortLe intLe intLe_total intLe_trans A).filter p).imp
      (fun h => of_decide_eq_true h)
  · exact ((pairwise_sortLe intLe intLe_total intLe_trans B).filter p).imp
      (fun h => of_decide_eq_true h)

theorem embedOps_out_of_range_skip (decode : String → Bool)
    (pages : List (ℚ × ℚ)) (pre post : List SignatureFieldData)
    (f : SignatureFieldData)
    (hout : f.pageNumber < 1 ∨ (pages.length : Int) < f.pageNumber) :
    embedOps decode pages (pre ++ f :: post) =
      embedOps decode pages (pre ++ post) := by
  rw [embedOps_eq, embedOps_eq]
  have hg1 : pageEntryOps decode pages
      (keyEntry (pre ++ f :: post) f.pageNumber) = [] :=
    pageEntryOps_out_of_range decode pages _ hout
  have hg2 : pageEntryOps decode pages
      (keyEntry (pre ++ post) f.pageNumber) = [] :=
    pageEntryOps_out_of_range decode pages _ hout
  unfold orderedKeys
  rw [List.flatMap_append, List.flatMap_append]
  congr 1
  · conv_lhs => rw [flatMap_filter_ne _ f.pageNumber hg1]
    conv_rhs => rw [flatMap_filter_ne _ f.pageNumber hg2]
    rw [sorted_filter_sortLe_eq _ _ _
      ((nodup_pageKeys (pre ++ f :: post)).filter _)
      ((nodup_pageKeys (pre ++ post)).filter _) ?_]
    · apply List.flatMap_congr
      intro x hx
      have hxne := (List.mem_filter.1 hx).2
      rw [bne_iff_ne] at hxne
      rw [keyEntry_ne pre post f x hxne]
    · intro x hp
      rw [bne_iff_ne] at hp
      rw [List.mem_filter, List.mem_filter]
      constructor
      · rintro ⟨hm, h0⟩
        exact ⟨(mem_pageKeys_ne pre post f x hp).1 hm, h0⟩
      · rintro ⟨hm, h0⟩
        exact ⟨(mem_pageKeys_ne pre post f x hp).2 hm, h0⟩
  · conv_lhs => rw [flatMap_filter_ne _ f.pageNumber hg1]
    conv_rhs => rw [flatMap_filter_ne _ f.pageNumber hg2]
    rw [List.filter_comm, pageKeys_filter_ne pre post f, ← List.filter_comm]
    apply List.flatMap_congr
    intro x hx
    have hxne := (List.mem_filter.1 hx).2
    rw [bne_iff_ne] at hxne
    rw [keyEntry_ne pre post f x hxne]

/-- C9: a field whose page number is below 1 or above the page count of
the loaded document is silently skipped: the embed does not fail, and its
result is identical to embedding the same field set with that field
removed. -/
theorem out_of_range_field_skipped (load : List Nat → Option PDFDoc)
    (decode : String → Bool) (pdfBytes : List Nat) (doc : PDFDoc)
    (pre post : List SignatureFieldData) (f : SignatureFieldData)
    (hload : load pdfBytes = some doc)
    (hout : f.pageNumber < 1 ∨ (doc.pages.length : Int) < f.pageNumber) :
    embedSignaturesInPDF load decode pdfBytes (pre ++ f :: post) =
      embedSignaturesInPDF load decode pdfBytes (pre ++ post) ∧
    embedSignaturesInPDF load decode pdfBytes (pre ++ f :: post) =
      Except.ok (doc, embedOps decode doc.pages (pre ++ post)) := by
  have h := embedOps_out_of_range_skip decode doc.pages pre post f hout
  constructor
  · simp [embedSignaturesInPDF, hload, h]
  · simp [embedSignaturesInPDF, hload, h]

/-- Witness for out_of_range_field_skipped: a completed text field on
page 5 of a one-page document changes nothing. -/
theorem out_of_range_field_skipped_witness :
    embedSignaturesInPDF loadLetter decodeAll []
        ([] ++ outOfRangeField :: [wsField]) =
      embedSignaturesInPDF loadLetter decodeAll [] ([] ++ [wsField]) ∧
    embedSignaturesInPDF loadLetter decodeAll []
        ([] ++ outOfRangeField :: [wsField]) =
      Except.ok (letterDoc,
        embedOps decodeAll letterDoc.pages ([] ++ [wsField])) :=
  out_of_range_field_skipped loadLetter decodeAll [] letterDoc [] [wsField]
    outOfRangeField rfl (Or.inr (by decide))

theorem fieldOps_of_falsy_value (decode : String → Bool) (pw ph : ℚ)
    (pidx : Nat) (s : SignatureFieldData) (h : strFalsy s.value = true) :
    fieldOps decode pw ph pidx s = [] := by
  rcases hv : s.value with _ | v
  · simp [fieldOps, hv]
  · rw [hv] at h
    simp only [strFalsy] at h
    simp [fieldOps, hv, h]

/-- Supporting fact for the embed no-op discussion: when no supplied
field carries a value, the embed succeeds and performs no drawing
operation at all — the returned state is the loaded document unchanged.
Whether the serialization of that unchanged state is byte-identical to
the input depends on the third-party parse and save round-trip, which is
outside this repository. -/
theorem embed_no_completed_values (load : List Nat → Option PDFDoc)
    (decode : String → Bool) (pdfBytes : List Nat) (doc : PDFDoc)
    (sigs : List SignatureFieldData) (hload : load pdfBytes = some doc)
    (h : ∀ s ∈ sigs, strFalsy s.value = true) :
    embedSignaturesInPDF load decode pdfBytes sigs = Except.ok (doc, []) := by
  have hops : embedOps decode doc.pages sigs = [] := by
    rw [embedOps_eq]
    rw [List.flatMap_eq_nil_iff]
    intro k hk
    unfold pageEntryOps
    dsimp only
    split
    · rfl
    · split
      · rfl
      · rename_i ps hget
        rw [List.flatMap_eq_nil_iff]
        intro s hs
        refine fieldOps_of_falsy_value decode ps.1 ps.2 _ s (h s ?_)
        have hs2 : s ∈ sigs ∧ s.pageNumber = k := by
          simpa [keyEntry] using hs
        exact hs2.1
  simp [embedSignaturesInPDF, hload, hops]

end ESig
